import Mathlib

/-!
Shallow embedding of `src/kalman_filter/base.cpp` (class `kalman_filter::base_t`).

Modelling conventions:
* `double` arithmetic is modelled exactly over `ℚ`.  The literal `1E-3` of the
  source is modelled as `1/1000`.  IEEE rounding and non-finite values are not
  modelled; claims about algorithm structure (comparisons, thresholds, mutation
  order, error raising) are faithful, numeric values are the exact-arithmetic
  ideal of the floating-point computation.
* `Eigen::VectorXd` / `Eigen::MatrixXd` members are modelled as total index
  functions `ℕ → ℚ` / `ℕ → ℕ → ℚ` with the dimensions `n_x`, `n_z` carried in
  the state record; entries outside the declared dimensions are phantom and
  never read by the embedded algorithms.
* `std::map<uint32_t, double_t> m_observations` is modelled as an association
  list kept strictly sorted by key (the map's iteration order), with
  `operator[]`-assignment modelled by the sorted insert-or-replace `mapInsert`.
* C++ `throw std::runtime_error(msg)` is modelled by `Except.error msg`; a
  method that cannot throw is a total function.  `masked_kalman_update` contains
  no `throw` (Eigen's `inverse()` does not signal singularity), so it is total.
* `Eigen`'s `inverse()` is modelled by the exact adjugate-over-determinant
  formula (which agrees with any exact inversion method on invertible input).
  On singular input Eigen silently produces non-finite garbage entries; the
  exact model produces the zero matrix (`ℚ` division by zero).  In both cases
  no error is raised and execution continues, which is the faithful part.
* the member `t_xx` of the source is a scratch temporary (written then consumed
  inside lines 106-108 to form `(P + Pᵀ)/2`); it is not part of the observable
  state and is inlined away.
-/

/-- Entries of an `Eigen::VectorXd`, as a total index function. -/
def VecQ : Type := ℕ → ℚ

/-- Entries of an `Eigen::MatrixXd`, as a total index function. -/
def MatQ : Type := ℕ → ℕ → ℚ

/-- An `Eigen::VectorXd` argument (carries its run-time size). -/
structure VectorXd where
  size : ℕ
  entry : VecQ

/-- An `Eigen::MatrixXd` argument (carries its run-time shape). -/
structure MatrixXd where
  rows : ℕ
  cols : ℕ
  entry : MatQ

/-- The state of a `kalman_filter::base_t` object: dimensions, the Eigen
members, and the pending-observation map (held sorted by key). -/
structure base_t where
  n_x : ℕ
  n_z : ℕ
  x : VecQ
  P : MatQ
  Q : MatQ
  R : MatQ
  C : MatQ
  z : VecQ
  S : MatQ
  m_observations : List (ℕ × ℚ)

/-- The n-by-n identity pattern written by `setIdentity`. -/
def idMat : MatQ := fun i j => if i = j then 1 else 0

/-- The zero pattern written by `setZero`. -/
def zeroMat : MatQ := fun _ _ => 0

/-- The zero vector written by `setZero`. -/
def zeroVec : VecQ := fun _ => 0

/-- Constructor `base_t::base_t(n_variables, n_observers)` (base.cpp lines
9-28): x zeroed, P/Q/R identity, R of observer dimension, z/S/C zeroed,
observation map empty. -/
def base_t.construct (n_variables n_observers : ℕ) : base_t :=
  { n_x := n_variables
    n_z := n_observers
    x := zeroVec
    P := idMat
    Q := idMat
    R := idMat
    C := zeroMat
    z := zeroVec
    S := zeroMat
    m_observations := [] }

/-- Sorted insert-or-replace modelling `std::map::operator[]` assignment:
keys stay strictly ascending, an existing key has its value replaced. -/
def mapInsert : List (ℕ × ℚ) → ℕ → ℚ → List (ℕ × ℚ)
  | [], k, v => [(k, v)]
  | (k', v') :: t, k, v =>
    if k < k' then (k, v) :: (k', v') :: t
    else if k = k' then (k, v) :: t
    else (k', v') :: mapInsert t k v

/-- Method `base_t::new_observation` (lines 36-47): throws when the observer
index is out of range, otherwise stores (add-or-replace) the observation. -/
def base_t.new_observation (s : base_t) (observer_index : ℕ) (observation : ℚ) :
    Except String base_t :=
  if ¬ observer_index < s.n_z then
    .error "failed to add new observation (observer_index out of range)"
  else
    .ok { s with m_observations := mapInsert s.m_observations observer_index observation }

/-- Method `base_t::has_observations` (lines 48-51). -/
def base_t.has_observations (s : base_t) : Bool :=
  !s.m_observations.isEmpty

/-- Method `base_t::has_observation` (lines 52-55): membership of the index in
the observation map. -/
def base_t.has_observation (s : base_t) (observer_index : ℕ) : Bool :=
  s.m_observations.any (fun p => p.1 = observer_index)

/-- Method `base_t::set_state` (lines 158-167). -/
def base_t.set_state (s : base_t) (index : ℕ) (value : ℚ) : Except String base_t :=
  if index ≥ s.n_x then .error "invalid state variable index"
  else .ok { s with x := fun a => if a = index then value else s.x a }

/-- Method `base_t::set_covariance` (lines 182-191). -/
def base_t.set_covariance (s : base_t) (index_a index_b : ℕ) (value : ℚ) :
    Except String base_t :=
  if index_a ≥ s.n_x ∨ index_b ≥ s.n_x then .error "invalid state variable index"
  else .ok { s with P := fun a b => if a = index_a ∧ b = index_b then value else s.P a b }

/-- Method `base_t::initialize_state` (lines 196-209): dimension checks, then
wholesale replacement of x and P. -/
def base_t.initialize_state (s : base_t) (x0 : VectorXd) (P0 : MatrixXd) :
    Except String base_t :=
  if x0.size ≠ s.n_x then
    .error "Initial state vector dimension does not match n_variables."
  else if P0.rows ≠ s.n_x ∨ P0.cols ≠ s.n_x then
    .error "Initial covariance matrix dimension does not match n_variables."
  else
    .ok { s with x := x0.entry, P := P0.entry }

/-! Masked update (lines 56-137), split into the same stages as the source. -/

/-- Number of pending observations `n_o` (line 59). -/
def n_o (s : base_t) : ℕ := s.m_observations.length

/-- Reporting observer indices in map iteration order (ascending). -/
def maskedKeys (s : base_t) : List ℕ := s.m_observations.map Prod.fst

/-- Masked innovation covariance `S_m` (lines 62-80): the submatrix of S at
pairs of reporting indices, in iteration order. -/
def S_m (s : base_t) : MatQ := fun a b =>
  s.S ((maskedKeys s).getD a 0) ((maskedKeys s).getD b 0)

/-- Masked observation matrix `C_m` (lines 63-80): the columns of C at the
reporting indices, in iteration order. -/
def C_m (s : base_t) : MatQ := fun r c =>
  s.C r ((maskedKeys s).getD c 0)

/-- First minor: the submatrix dropping row r and column c. -/
def minorM (A : MatQ) (r c : ℕ) : MatQ := fun i j =>
  A (if i < r then i else i + 1) (if j < c then j else j + 1)

/-- Determinant of the leading n-by-n block, by Laplace expansion along the
first row. -/
def detN : ℕ → MatQ → ℚ
  | 0, _ => 1
  | n + 1, A => ∑ j in Finset.range (n + 1), (-1 : ℚ) ^ j * A 0 j * detN n (minorM A 0 j)

/-- Exact n-by-n matrix inverse, adjugate over determinant, modelling
`Eigen::MatrixXd::inverse()` on line 83 (exact on invertible input; on singular
input Eigen produces non-finite garbage with no error, here division by zero
yields the zero matrix, likewise with no error). -/
def invN (n : ℕ) (A : MatQ) : MatQ := fun i j =>
  (detN n A)⁻¹ * ((-1 : ℚ) ^ (i + j) * detN (n - 1) (minorM A j i))

/-- Matrix product with explicit inner dimension k. -/
def matMul (k : ℕ) (A B : MatQ) : MatQ := fun i j =>
  ∑ t in Finset.range k, A i t * B t j

/-- Transpose. -/
def transposeM (A : MatQ) : MatQ := fun i j => A j i

/-- Inverse of the masked innovation covariance `Si_m` (line 83). -/
def Si_m (s : base_t) : MatQ := invN (n_o s) (S_m s)

/-- Masked Kalman gain `K_m = C_m * Si_m` (lines 86-87). -/
def K_m (s : base_t) : MatQ := matMul (n_o s) (C_m s) (Si_m s)

/-- Masked innovation `zd_m` (lines 90-95): observed value minus predicted
observation, per reporting index, in iteration order. -/
def zd_m (s : base_t) : VecQ := fun k =>
  (s.m_observations.getD k (0, 0)).2 - s.z ((maskedKeys s).getD k 0)

/-- State update `x += K_m * zd_m` (line 98). -/
def x_update (s : base_t) : VecQ := fun i =>
  s.x i + ∑ t in Finset.range (n_o s), K_m s i t * zd_m s t

/-- Covariance update `P -= K_m * S_m * K_mᵀ` (line 102). -/
def P_update (s : base_t) : MatQ := fun i j =>
  s.P i j - matMul (n_o s) (matMul (n_o s) (K_m s) (S_m s)) (transposeM (K_m s)) i j

/-- Symmetrisation `P ← (P + Pᵀ)/2` (lines 106-108, via the temporary t_xx). -/
def P_sym (s : base_t) : MatQ := fun i j =>
  (P_update s i j + P_update s j i) / 2

/-- Pointwise write to a matrix entry. -/
def mset (M : MatQ) (r c : ℕ) (v : ℚ) : MatQ := fun a b =>
  if a = r ∧ b = c then v else M a b

/-- Body of the inner conditioning loop over columns j for a fixed row i
(lines 112-127): an off-diagonal entry below 1e-3 is zeroed in place,
otherwise its absolute value is added to the running row sum. -/
def condRowStep (i : ℕ) (acc : MatQ × ℚ) (j : ℕ) : MatQ × ℚ :=
  if i ≠ j then
    if acc.1 i j < 1 / 1000 then (mset acc.1 i j 0, acc.2)
    else (acc.1, acc.2 + |acc.1 i j|)
  else acc

/-- One iteration of the outer conditioning loop (lines 110-133): run the inner
loop over all columns, then raise the diagonal to row_sum + 1e-3 when it does
not exceed the row sum. -/
def condRow (n : ℕ) (P : MatQ) (i : ℕ) : MatQ :=
  let r := (List.range n).foldl (condRowStep i) (P, 0)
  if r.1 i i ≤ r.2 then mset r.1 i i (r.2 + 1 / 1000) else r.1

/-- The full conditioning pass (lines 110-133): the outer loop over rows. -/
def condition (n : ℕ) (P : MatQ) : MatQ :=
  (List.range n).foldl (condRow n) P

/-- Method `base_t::masked_kalman_update` (lines 56-137): mask S and C, invert
the masked S, form the gain and innovation, update x and P, symmetrise and
condition P, clear the observation map.  The method contains no throw and is
total. -/
def base_t.masked_kalman_update (s : base_t) : base_t :=
  { s with
    x := x_update s
    P := condition s.n_x (P_sym s)
    m_observations := [] }

/-- Row sum computed by the conditioning pass for row i: absolute values of the
off-diagonal entries of row i that survive the (signed) 1e-3 threshold. -/
def rowSum (n : ℕ) (P : MatQ) (i : ℕ) : ℚ :=
  ∑ j in Finset.range n, if i ≠ j ∧ ¬ P i j < 1 / 1000 then |P i j| else 0

/-! Characterisation of the conditioning loops (lines 110-133). -/

/-- Sum of a function over `List.range` equals the `Finset.range` sum. -/
theorem list_range_map_sum (n : ℕ) (f : ℕ → ℚ) :
    ((List.range n).map f).sum = ∑ j in Finset.range n, f j := by
  induction n with
  | zero => simp
  | succ m ih =>
    rw [List.range_succ, List.map_append, List.sum_append, Finset.sum_range_succ, ih]
    simp

/-- Characterisation of the inner conditioning loop over a duplicate-free list
of column indices: only row i is modified, an entry of row i is zeroed exactly
when it is off-diagonal, visited, and below the threshold, and the accumulator
collects the absolute values of the surviving visited off-diagonal entries. -/
theorem condInner_spec (i : ℕ) :
    ∀ (L : List ℕ), L.Nodup → ∀ (P : MatQ) (r : ℚ),
      (∀ a b, ((L.foldl (condRowStep i) (P, r)).1) a b =
          if a = i ∧ b ∈ L ∧ b ≠ i ∧ P i b < 1 / 1000 then 0 else P a b) ∧
      (L.foldl (condRowStep i) (P, r)).2 =
        r + (L.map (fun j => if i ≠ j ∧ ¬ P i j < 1 / 1000 then |P i j| else 0)).sum := by
  intro L
  induction L with
  | nil =>
    intro _ P r
    refine ⟨fun a b => ?_, ?_⟩
    · simp
    · simp
  | cons j T ih =>
    intro hnd P r
    obtain ⟨hjT, hT⟩ := List.nodup_cons.mp hnd
    by_cases hij : i = j
    · have hstep : condRowStep i (P, r) j = (P, r) := by
        show (if i ≠ j then
                if P i j < 1 / 1000 then (mset P i j 0, r) else (P, r + |P i j|)
              else (P, r)) = (P, r)
        rw [if_neg (fun hc => hc hij)]
      rw [List.foldl_cons, hstep]
      obtain ⟨h1, h2⟩ := ih hT P r
      refine ⟨fun a b => ?_, ?_⟩
      · rw [h1 a b]
        have hiff : (a = i ∧ b ∈ T ∧ b ≠ i ∧ P i b < 1 / 1000) ↔
            (a = i ∧ b ∈ j :: T ∧ b ≠ i ∧ P i b < 1 / 1000) := by
          subst hij
          simp only [List.mem_cons]
          constructor <;> tauto
        rw [if_congr hiff rfl rfl]
      · rw [h2, List.map_cons, List.sum_cons,
          if_neg (fun hc : i ≠ j ∧ _ => hc.1 hij)]
        ring
    · by_cases hPij : P i j < 1 / 1000
      · have hstep : condRowStep i (P, r) j = (mset P i j 0, r) := by
          show (if i ≠ j then
                  if P i j < 1 / 1000 then (mset P i j 0, r) else (P, r + |P i j|)
                else (P, r)) = (mset P i j 0, r)
          rw [if_pos hij, if_pos hPij]
        rw [List.foldl_cons, hstep]
        obtain ⟨h1, h2⟩ := ih hT (mset P i j 0) r
        refine ⟨fun a b => ?_, ?_⟩
        · rw [h1 a b]
          by_cases hb : b = j
          · subst hb
            rw [if_neg (fun h => hjT h.2.1)]
            by_cases ha : a = i
            · rw [if_pos ⟨ha, List.mem_cons_self b T, Ne.symm hij, hPij⟩]
              simp [mset, ha]
            · rw [if_neg (fun h => ha h.1)]
              simp [mset, ha]
          · have e1 : mset P i j 0 i b = P i b := by simp [mset, hb]
            have e2 : mset P i j 0 a b = P a b := by simp [mset, hb]
            rw [e1, e2]
            have hiff : (a = i ∧ b ∈ T ∧ b ≠ i ∧ P i b < 1 / 1000) ↔
                (a = i ∧ b ∈ j :: T ∧ b ≠ i ∧ P i b < 1 / 1000) := by
              simp only [List.mem_cons]
              constructor <;> tauto
            rw [if_congr hiff rfl rfl]
        · rw [h2]
          have hmap : T.map (fun c => if i ≠ c ∧ ¬ mset P i j 0 i c < 1 / 1000 then
                |mset P i j 0 i c| else 0)
              = T.map (fun c => if i ≠ c ∧ ¬ P i c < 1 / 1000 then |P i c| else 0) := by
            apply List.map_congr_left
            intro b hbT
            have hb : b ≠ j := fun h => hjT (h ▸ hbT)
            simp [mset, hb]
          rw [hmap, List.map_cons, List.sum_cons,
            if_neg (fun hc : i ≠ j ∧ ¬ P i j < 1 / 1000 => hc.2 hPij)]
          ring
      · have hstep : condRowStep i (P, r) j = (P, r + |P i j|) := by
          show (if i ≠ j then
                  if P i j < 1 / 1000 then (mset P i j 0, r) else (P, r + |P i j|)
                else (P, r)) = (P, r + |P i j|)
          rw [if_pos hij, if_neg hPij]
        rw [List.foldl_cons, hstep]
        obtain ⟨h1, h2⟩ := ih hT P (r + |P i j|)
        refine ⟨fun a b => ?_, ?_⟩
        · rw [h1 a b]
          by_cases hb : b = j
          · subst hb
            rw [if_neg (fun h => hPij h.2.2.2), if_neg (fun h => hPij h.2.2.2)]
          · have hiff : (a = i ∧ b ∈ T ∧ b ≠ i ∧ P i b < 1 / 1000) ↔
                (a = i ∧ b ∈ j :: T ∧ b ≠ i ∧ P i b < 1 / 1000) := by
              simp only [List.mem_cons]
              constructor <;> tauto
            rw [if_congr hiff rfl rfl]
        · rw [h2, List.map_cons, List.sum_cons, if_pos ⟨hij, hPij⟩]
          ring

/-- Closed form of one outer conditioning iteration: only row i changes, the
off-diagonal entries of row i below the (signed) threshold are zeroed, and the
diagonal is raised to rowSum + 1e-3 exactly when it does not exceed the row
sum. -/
theorem condRow_spec (n : ℕ) (P : MatQ) (i a b : ℕ) :
    condRow n P i a b =
      if a = i ∧ b = i then
        if P i i ≤ rowSum n P i then rowSum n P i + 1 / 1000 else P i i
      else if a = i ∧ b ∈ List.range n ∧ b ≠ i ∧ P i b < 1 / 1000 then 0
      else P a b := by
  obtain ⟨h1, h2⟩ := condInner_spec i (List.range n) (List.nodup_range n) P 0
  have hdiag : ((List.range n).foldl (condRowStep i) (P, 0)).1 i i = P i i := by
    rw [h1]
    simp
  have hsum : ((List.range n).foldl (condRowStep i) (P, 0)).2 = rowSum n P i := by
    rw [h2, zero_add, list_range_map_sum]
    rfl
  show (let r := (List.range n).foldl (condRowStep i) (P, 0);
        if r.1 i i ≤ r.2 then mset r.1 i i (r.2 + 1 / 1000) else r.1) a b = _
  simp only []
  by_cases hd : P i i ≤ rowSum n P i
  · rw [if_pos (by rw [hdiag, hsum]; exact hd), hsum]
    by_cases hab : a = i ∧ b = i
    · have hm : mset ((List.range n).foldl (condRowStep i) (P, 0)).1 i i
          (rowSum n P i + 1 / 1000) a b = rowSum n P i + 1 / 1000 := by
        rw [hab.1, hab.2]
        simp [mset]
      rw [hm, if_pos hab, if_pos hd]
    · have hm : mset ((List.range n).foldl (condRowStep i) (P, 0)).1 i i
          (rowSum n P i + 1 / 1000) a b
          = ((List.range n).foldl (condRowStep i) (P, 0)).1 a b := by
        simp only [mset]
        rw [if_neg hab]
      rw [hm, h1 a b, if_neg hab]
  · rw [if_neg (by rw [hdiag, hsum]; exact hd), h1 a b]
    by_cases hab : a = i ∧ b = i
    · rw [if_pos hab, if_neg hd, if_neg (fun hc => hc.2.2.1 hab.2), hab.1, hab.2]
    · rw [if_neg hab]

/-- One outer conditioning iteration reads only row i of its input: equal rows
give equal results on row i. -/
theorem condRow_row_congr (n : ℕ) (P P' : MatQ) (i : ℕ)
    (h : ∀ c, P i c = P' i c) (b : ℕ) :
    condRow n P i i b = condRow n P' i i b := by
  have hrs : rowSum n P i = rowSum n P' i := by
    unfold rowSum
    apply Finset.sum_congr rfl
    intro j _
    rw [h j]
  rw [condRow_spec, condRow_spec, hrs, h i, h b]

/-- Folding the outer conditioning iteration over a duplicate-free list of rows
treats each listed row independently, from the original matrix. -/
theorem condFold_spec (n : ℕ) :
    ∀ (L : List ℕ), L.Nodup → ∀ (P : MatQ) (a b : ℕ),
      (L.foldl (condRow n) P) a b = if a ∈ L then condRow n P a a b else P a b := by
  intro L
  induction L with
  | nil =>
    intro _ P a b
    simp
  | cons j T ih =>
    intro hnd P a b
    obtain ⟨hjT, hT⟩ := List.nodup_cons.mp hnd
    rw [List.foldl_cons, ih hT (condRow n P j) a b]
    by_cases haj : a = j
    · subst haj
      rw [if_neg (fun h => hjT h), if_pos (List.mem_cons_self a T)]
    · have hrow : ∀ c, condRow n P j a c = P a c := by
        intro c
        rw [condRow_spec, if_neg (fun h => haj h.1), if_neg (fun h => haj h.1)]
      by_cases haT : a ∈ T
      · rw [if_pos haT, if_pos (List.mem_cons_of_mem j haT)]
        exact condRow_row_congr n (condRow n P j) P a hrow b
      · rw [if_neg haT, if_neg (by
          intro h
          rcases List.mem_cons.mp h with h' | h'
          · exact haj h'
          · exact haT h')]
        exact hrow b

/-- Pointwise value of the full conditioning pass. -/
theorem condition_apply (n : ℕ) (P : MatQ) (a b : ℕ) :
    condition n P a b = if a < n then condRow n P a a b else P a b := by
  unfold condition
  rw [condFold_spec n (List.range n) (List.nodup_range n) P a b]
  by_cases h : a < n
  · rw [if_pos (List.mem_range.mpr h), if_pos h]
  · rw [if_neg (fun hc => h (List.mem_range.mp hc)), if_neg h]

/-- Conditioning leaves rows at or beyond n untouched. -/
theorem condition_untouched (n : ℕ) (P : MatQ) {i : ℕ} (hi : ¬ i < n) (j : ℕ) :
    condition n P i j = P i j := by
  rw [condition_apply, if_neg hi]

/-- Off-diagonal entries after conditioning: zeroed exactly when below the
(signed) 1e-3 threshold and inside the matrix, otherwise unchanged. -/
theorem condition_offdiag (n : ℕ) (P : MatQ) {i j : ℕ} (hi : i < n) (hij : j ≠ i) :
    condition n P i j = if j < n ∧ P i j < 1 / 1000 then 0 else P i j := by
  rw [condition_apply, if_pos hi, condRow_spec, if_neg (fun h => hij h.2)]
  by_cases hc : j < n ∧ P i j < 1 / 1000
  · rw [if_pos hc, if_pos ⟨rfl, List.mem_range.mpr hc.1, hij, hc.2⟩]
  · rw [if_neg hc, if_neg (fun h => hc ⟨List.mem_range.mp h.2.1, h.2.2.2⟩)]

/-- Diagonal entries after conditioning: raised to rowSum + 1e-3 exactly when
not already above the row sum. -/
theorem condition_diag (n : ℕ) (P : MatQ) {i : ℕ} (hi : i < n) :
    condition n P i i = if P i i ≤ rowSum n P i then rowSum n P i + 1 / 1000 else P i i := by
  rw [condition_apply, if_pos hi, condRow_spec, if_pos ⟨rfl, rfl⟩]

/-- The conditioning row sum is a sum of absolute values, hence nonnegative. -/
theorem rowSum_nonneg (n : ℕ) (P : MatQ) (i : ℕ) : 0 ≤ rowSum n P i := by
  unfold rowSum
  apply Finset.sum_nonneg
  intro j _
  by_cases h : i ≠ j ∧ ¬ P i j < 1 / 1000
  · rw [if_pos h]
    exact abs_nonneg _
  · rw [if_neg h]

/-- After conditioning, every in-range diagonal entry strictly exceeds the row
sum of surviving off-diagonal magnitudes. -/
theorem condition_diag_gt_rowSum (n : ℕ) (P : MatQ) {i : ℕ} (hi : i < n) :
    rowSum n P i < condition n P i i := by
  rw [condition_diag n P hi]
  by_cases h : P i i ≤ rowSum n P i
  · rw [if_pos h]
    have : (0 : ℚ) < 1 / 1000 := by norm_num
    linarith
  · rw [if_neg h]
    exact lt_of_not_le h

/-- After conditioning, every in-range diagonal entry is strictly positive. -/
theorem condition_diag_pos (n : ℕ) (P : MatQ) {i : ℕ} (hi : i < n) :
    0 < condition n P i i :=
  lt_of_le_of_lt (rowSum_nonneg n P i) (condition_diag_gt_rowSum n P hi)

/-- Conditioning a symmetric matrix yields a symmetric matrix. -/
theorem condition_symm (n : ℕ) (P : MatQ) (hP : ∀ a b, P a b = P b a) (a b : ℕ) :
    condition n P a b = condition n P b a := by
  by_cases hab : a = b
  · rw [hab]
  · by_cases ha : a < n <;> by_cases hb : b < n
    · rw [condition_offdiag n P ha (fun h => hab h.symm),
        condition_offdiag n P hb (fun h => hab h), hP a b]
      have hiff : (b < n ∧ P b a < 1 / 1000) ↔ (a < n ∧ P b a < 1 / 1000) := by
        constructor
        · exact fun h => ⟨ha, h.2⟩
        · exact fun h => ⟨hb, h.2⟩
      rw [if_congr hiff rfl rfl]
    · rw [condition_offdiag n P ha (fun h => hab h.symm), condition_untouched n P hb a,
        if_neg (fun h => hb h.1), hP a b]
    · rw [condition_untouched n P ha b, condition_offdiag n P hb (fun h => hab h),
        if_neg (fun h => ha h.1), hP a b]
    · rw [condition_untouched n P ha b, condition_untouched n P hb a, hP a b]

/-- After conditioning, the sum of absolute off-diagonal entries in an in-range
row equals the conditioning row sum of the original matrix. -/
theorem rowSum_final (n : ℕ) (P : MatQ) {i : ℕ} (hi : i < n) :
    (∑ j in Finset.range n, if j ≠ i then |condition n P i j| else 0) = rowSum n P i := by
  unfold rowSum
  apply Finset.sum_congr rfl
  intro j hj
  have hjn : j < n := Finset.mem_range.mp hj
  by_cases hji : j = i
  · rw [if_neg (fun h => h hji), if_neg (fun h : i ≠ j ∧ ¬ P i j < 1 / 1000 => h.1 hji.symm)]
  · rw [if_pos hji, condition_offdiag n P hi hji]
    by_cases hp : P i j < 1 / 1000
    · rw [if_pos ⟨hjn, hp⟩, if_neg (fun h : i ≠ j ∧ ¬ P i j < 1 / 1000 => h.2 hp), abs_zero]
    · rw [if_neg (fun h : j < n ∧ P i j < 1 / 1000 => hp h.2),
        if_pos ⟨fun h => hji h.symm, hp⟩]

/-- The symmetrised covariance (P + Pᵀ)/2 is symmetric. -/
theorem P_sym_symm (s : base_t) : ∀ a b, P_sym s a b = P_sym s b a := by
  intro a b
  unfold P_sym
  ring

/-- With an empty observation map the state update adds an empty sum. -/
theorem x_update_empty (s : base_t) (h : s.m_observations = []) (i : ℕ) :
    x_update s i = s.x i := by
  unfold x_update n_o
  rw [h]
  simp

/-- With an empty observation map the covariance update subtracts an empty
sum. -/
theorem P_update_empty (s : base_t) (h : s.m_observations = []) (i j : ℕ) :
    P_update s i j = s.P i j := by
  unfold P_update matMul n_o
  rw [h]
  simp

/-! Association-list lemmas for the observation map. -/

/-- Unfolding lemma for `mapInsert` on nil. -/
theorem mapInsert_nil (k : ℕ) (v : ℚ) : mapInsert [] k v = [(k, v)] := rfl

/-- Unfolding lemma for `mapInsert` on cons. -/
theorem mapInsert_cons (k' : ℕ) (v' : ℚ) (t : List (ℕ × ℚ)) (k : ℕ) (v : ℚ) :
    mapInsert ((k', v') :: t) k v =
      if k < k' then (k, v) :: (k', v') :: t
      else if k = k' then (k, v) :: t
      else (k', v') :: mapInsert t k v := rfl

/-- Inserting the same key twice keeps only the second value (map overwrite
semantics of `operator[]`). -/
theorem mapInsert_mapInsert (l : List (ℕ × ℚ)) (k : ℕ) (v1 v2 : ℚ) :
    mapInsert (mapInsert l k v1) k v2 = mapInsert l k v2 := by
  induction l with
  | nil =>
    rw [mapInsert_nil, mapInsert_cons, if_neg (lt_irrefl k), if_pos rfl, mapInsert_nil]
  | cons p t ih =>
    obtain ⟨k', v'⟩ := p
    rcases Nat.lt_trichotomy k k' with h1 | h1 | h1
    · rw [mapInsert_cons, if_pos h1, mapInsert_cons, if_neg (lt_irrefl k), if_pos rfl,
        mapInsert_cons, if_pos h1]
    · have hnlt : ¬ k < k' := by rw [h1]; exact lt_irrefl k'
      rw [mapInsert_cons, if_neg hnlt, if_pos h1, mapInsert_cons, if_neg (lt_irrefl k),
        if_pos rfl, mapInsert_cons, if_neg hnlt, if_pos h1]
    · have hnlt : ¬ k < k' := Nat.not_lt.mpr (Nat.le_of_lt h1)
      have hne : ¬ k = k' := fun h => lt_irrefl k' (h ▸ h1)
      rw [mapInsert_cons, if_neg hnlt, if_neg hne, mapInsert_cons, if_neg hnlt, if_neg hne, ih,
        mapInsert_cons, if_neg hnlt, if_neg hne]

/-- The result of `mapInsert` is never empty. -/
theorem mapInsert_ne_nil (l : List (ℕ × ℚ)) (k : ℕ) (v : ℚ) : mapInsert l k v ≠ [] := by
  cases l with
  | nil => simp [mapInsert_nil]
  | cons p t =>
    obtain ⟨k', v'⟩ := p
    rw [mapInsert_cons]
    split_ifs <;> simp

/-- The inserted pair is a member of the result. -/
theorem mapInsert_mem_self (l : List (ℕ × ℚ)) (k : ℕ) (v : ℚ) :
    (k, v) ∈ mapInsert l k v := by
  induction l with
  | nil => rw [mapInsert_nil]; exact List.mem_cons_self _ _
  | cons p t ih =>
    obtain ⟨k', v'⟩ := p
    rw [mapInsert_cons]
    split_ifs with h1 h2
    · exact List.mem_cons_self _ _
    · exact List.mem_cons_self _ _
    · exact List.mem_cons_of_mem _ ih

/-- Members of the result of `mapInsert` are the inserted pair or old
members. -/
theorem mem_mapInsert (l : List (ℕ × ℚ)) (k : ℕ) (v : ℚ) (q : ℕ × ℚ)
    (h : q ∈ mapInsert l k v) : q = (k, v) ∨ q ∈ l := by
  induction l with
  | nil =>
    rw [mapInsert_nil] at h
    rcases List.mem_cons.mp h with h' | h'
    · exact Or.inl h'
    · cases h'
  | cons p t ih =>
    obtain ⟨k', v'⟩ := p
    rw [mapInsert_cons] at h
    split_ifs at h with h1 h2
    · rcases List.mem_cons.mp h with h' | h'
      · exact Or.inl h'
      · exact Or.inr h'
    · rcases List.mem_cons.mp h with h' | h'
      · exact Or.inl h'
      · exact Or.inr (List.mem_cons_of_mem _ h')
    · rcases List.mem_cons.mp h with h' | h'
      · exact Or.inr (h' ▸ List.mem_cons_self _ _)
      · rcases ih h' with h'' | h''
        · exact Or.inl h''
        · exact Or.inr (List.mem_cons_of_mem _ h'')

/-- Well-formedness of the observation map: keys strictly ascending (the
`std::map` invariant). -/
def obsWF (l : List (ℕ × ℚ)) : Prop := l.Pairwise (fun p q => p.1 < q.1)

/-- `mapInsert` preserves the strictly-ascending key invariant. -/
theorem mapInsert_wf (l : List (ℕ × ℚ)) (k : ℕ) (v : ℚ) (h : obsWF l) :
    obsWF (mapInsert l k v) := by
  induction l with
  | nil =>
    rw [mapInsert_nil]
    exact List.pairwise_singleton _ _
  | cons p t ih =>
    obtain ⟨k', v'⟩ := p
    obtain ⟨hhead, htail⟩ := List.pairwise_cons.mp h
    rcases Nat.lt_trichotomy k k' with h1 | h1 | h1
    · rw [mapInsert_cons, if_pos h1]
      refine List.Pairwise.cons ?_ h
      intro q hq
      rcases List.mem_cons.mp hq with rfl | hq'
      · exact h1
      · exact lt_trans h1 (hhead q hq')
    · have hnlt : ¬ k < k' := by rw [h1]; exact lt_irrefl k'
      rw [mapInsert_cons, if_neg hnlt, if_pos h1]
      refine List.Pairwise.cons ?_ htail
      intro q hq
      rw [show ((k, v).1 : ℕ) = k' from h1]
      exact hhead q hq
    · have hnlt : ¬ k < k' := Nat.not_lt.mpr (Nat.le_of_lt h1)
      have hne : ¬ k = k' := fun h' => lt_irrefl k' (h' ▸ h1)
      rw [mapInsert_cons, if_neg hnlt, if_neg hne]
      refine List.Pairwise.cons ?_ (ih htail)
      intro q hq
      rcases mem_mapInsert t k v q hq with rfl | hq'
      · exact h1
      · exact hhead q hq'

/-- Strictly ascending keys are duplicate-free. -/
theorem obsWF_keys_nodup (l : List (ℕ × ℚ)) (h : obsWF l) : (l.map Prod.fst).Nodup :=
  List.Pairwise.map Prod.fst (fun _ _ hab => Nat.ne_of_lt hab) h

/-! Concrete states used by claim evaluations. -/

/-- The spec's concrete scenario state: n_x=2, n_z=1, C=[[1],[0]], z=[0],
S=[[1]], x=[0,0], P=I2. -/
def scenarioState : base_t :=
  { base_t.construct 2 1 with
    C := fun i j => if i = 0 ∧ j = 0 then 1 else 0
    S := fun i j => if i = 0 ∧ j = 0 then 1 else 0 }

/-- The scenario state after `new_observation(0, 1.0)`. -/
def scenarioWithObs : base_t := { scenarioState with m_observations := [(0, 1)] }

/-- A 2-state estimator whose symmetric covariance has the large negative
off-diagonal value -1/2, with one pending observation; C is zero so the gain
vanishes and the correction leaves P unchanged before conditioning. -/
def negOffdiagState : base_t :=
  { base_t.construct 2 1 with
    S := fun i j => if i = 0 ∧ j = 0 then 1 else 0
    P := fun i j => if i = j then 1 else -(1 / 2)
    m_observations := [(0, 0)] }

/-- A 1-state estimator whose only covariance entry was set to -1, the result
of `set_covariance(0, 0, -1)` on a fresh estimator. -/
def negDiagState : base_t :=
  { base_t.construct 1 1 with
    P := fun a b => if a = 0 ∧ b = 0 then -1 else idMat a b }

/-- `negDiagState` is reachable through the public mutator. -/
theorem set_covariance_negDiagState :
    (base_t.construct 1 1).set_covariance 0 0 (-1) = Except.ok negDiagState := rfl

/-- `negDiagState` with one pending observation; S is still the zero matrix of
the constructor, so the masked innovation covariance is the singular [[0]]. -/
def singularObsState : base_t := { negDiagState with m_observations := [(0, 1)] }

/-- A 1-state estimator arranged so that the corrected covariance diagonal
exceeds its (empty) conditioning row sum by only 1/10000: P=[[0.5001]],
S=[[2]], C=[[1]], one pending observation of value 1. -/
def thinMarginState : base_t :=
  { base_t.construct 1 1 with
    S := fun i j => if i = 0 ∧ j = 0 then 2 else 0
    C := fun i j => if i = 0 ∧ j = 0 then 1 else 0
    P := fun a b => if a = 0 ∧ b = 0 then 5001 / 10000 else idMat a b
    m_observations := [(0, 1)] }

/-- A 1-observer estimator holding the single observation (0, 2). -/
def obsOnce : base_t := { base_t.construct 1 1 with m_observations := [(0, 2)] }

/-- The fresh 2-state estimator after reinitialisation with the constant
vector 5 and constant matrix 7. -/
def reinitialized : base_t :=
  { base_t.construct 2 2 with x := fun _ => 5, P := fun _ _ => 7 }

/-! Claim theorems. -/

/-- C8: every `masked_kalman_update` call (the method is total, so every call
completes without error) clears the observation buffer — afterwards
`has_observations()` is false and `has_observation(i)` is false for every i —
and never modifies Q, R, C, z, S or the dimensions n_x, n_z; its only
mutations are to x, P and the buffer. -/
theorem C8_update_frame (s : base_t) :
    s.masked_kalman_update.m_observations = [] ∧
    s.masked_kalman_update.has_observations = false ∧
    (∀ i, s.masked_kalman_update.has_observation i = false) ∧
    s.masked_kalman_update.Q = s.Q ∧
    s.masked_kalman_update.R = s.R ∧
    s.masked_kalman_update.C = s.C ∧
    s.masked_kalman_update.z = s.z ∧
    s.masked_kalman_update.S = s.S ∧
    s.masked_kalman_update.n_x = s.n_x ∧
    s.masked_kalman_update.n_z = s.n_z :=
  ⟨rfl, rfl, fun _ => rfl, rfl, rfl, rfl, rfl, rfl, rfl, rfl⟩

/-- C9: for every n_x > 0 and n_z > 0, a freshly constructed estimator has P,
Q (n_x×n_x) and R (n_z×n_z) equal to identity, x and z zero, C and S zero, and
no pending observations. -/
theorem C9_constructor_spec (n_variables n_observers : ℕ)
    (_h1 : 0 < n_variables) (_h2 : 0 < n_observers) :
    (∀ i j, (base_t.construct n_variables n_observers).P i j = if i = j then 1 else 0) ∧
    (∀ i j, (base_t.construct n_variables n_observers).Q i j = if i = j then 1 else 0) ∧
    (∀ i j, (base_t.construct n_variables n_observers).R i j = if i = j then 1 else 0) ∧
    (∀ i, (base_t.construct n_variables n_observers).x i = 0) ∧
    (∀ i, (base_t.construct n_variables n_observers).z i = 0) ∧
    (∀ i j, (base_t.construct n_variables n_observers).C i j = 0) ∧
    (∀ i j, (base_t.construct n_variables n_observers).S i j = 0) ∧
    (base_t.construct n_variables n_observers).has_observations = false :=
  ⟨fun _ _ => rfl, fun _ _ => rfl, fun _ _ => rfl, fun _ => rfl, fun _ => rfl,
    fun _ _ => rfl, fun _ _ => rfl, rfl⟩

/-- Witness for C9 at the concrete dimensions (1, 1). -/
theorem C9_witness : (base_t.construct 1 1).has_observations = false :=
  (C9_constructor_spec 1 1 (by decide) (by decide)).2.2.2.2.2.2.2

/-- C10: after every `masked_kalman_update` call (the arithmetic model is
exact, so every entry is finite), every in-range diagonal entry of P is
strictly positive — for any prior P, including asymmetric ones or ones given
non-positive diagonals via `set_covariance`, and for any buffer contents,
including the empty buffer (the conditioning pass runs unconditionally). -/
theorem C10_positive_diagonal (s : base_t) (i : ℕ) (hi : i < s.n_x) :
    0 < s.masked_kalman_update.P i i := by
  show 0 < condition s.n_x (P_sym s) i i
  exact condition_diag_pos s.n_x (P_sym s) hi

/-- Witness for C10 at the estimator whose diagonal was set to -1 via
`set_covariance` and whose buffer is empty. -/
theorem C10_witness : 0 < negDiagState.masked_kalman_update.P 0 0 :=
  C10_positive_diagonal negDiagState 0 (by decide)
/-- C1, code evaluation at the failing input: the conditioning loop's test
`P(i,j) < 1E-3` on line 118 is a signed comparison, so the symmetric
off-diagonal entries -1/2 — whose magnitude is well above 1e-3 — are zeroed,
although the claim (and the comment "clean out small numbers") says entries
with magnitude at least 1e-3 are never zeroed. -/
theorem C1_code_zeroes_large_negative_entry :
    1 / 1000 ≤ |negOffdiagState.P 0 1| ∧
    negOffdiagState.masked_kalman_update.P 0 1 = 0 ∧
    negOffdiagState.masked_kalman_update.P 1 0 = 0 := by
  refine ⟨?_, ?_, ?_⟩
  · rw [show negOffdiagState.P 0 1 = -(1 / 2) from rfl, abs_neg,
      abs_of_nonneg (by norm_num : (0 : ℚ) ≤ 1 / 2)]
    norm_num
  all_goals
    norm_num [base_t.masked_kalman_update, condition, condRow, condRowStep, mset,
      List.range_succ, P_sym, P_update, matMul, transposeM, K_m, C_m, Si_m, S_m, invN,
      detN, minorM, n_o, maskedKeys, zd_m, x_update, negOffdiagState, base_t.construct,
      idMat, zeroMat, zeroVec, Finset.sum_range_succ, List.getD]

/-- C5: the spec's concrete scenario: after `new_observation(0, 1.0)` and
`masked_kalman_update()` the gain is K_m=[[1],[0]], the innovation is
d_m=[1.0], the state becomes [1, 0], the covariance before conditioning is
[[0,0],[0,1]], and after conditioning P[0,0]=0.001 with the other entries
unchanged. -/
theorem C5_concrete_scenario :
    scenarioState.new_observation 0 1 = Except.ok scenarioWithObs ∧
    K_m scenarioWithObs 0 0 = 1 ∧ K_m scenarioWithObs 1 0 = 0 ∧
    zd_m scenarioWithObs 0 = 1 ∧
    scenarioWithObs.masked_kalman_update.x 0 = 1 ∧
    scenarioWithObs.masked_kalman_update.x 1 = 0 ∧
    P_update scenarioWithObs 0 0 = 0 ∧ P_update scenarioWithObs 0 1 = 0 ∧
    P_update scenarioWithObs 1 0 = 0 ∧ P_update scenarioWithObs 1 1 = 1 ∧
    scenarioWithObs.masked_kalman_update.P 0 0 = 1 / 1000 ∧
    scenarioWithObs.masked_kalman_update.P 0 1 = 0 ∧
    scenarioWithObs.masked_kalman_update.P 1 0 = 0 ∧
    scenarioWithObs.masked_kalman_update.P 1 1 = 1 := by
  refine ⟨rfl, ?_, ?_, ?_, ?_, ?_, ?_, ?_, ?_, ?_, ?_, ?_, ?_, ?_⟩ <;>
    norm_num [base_t.masked_kalman_update, condition, condRow, condRowStep, mset,
      List.range_succ, P_sym, P_update, matMul, transposeM, K_m, C_m, Si_m, S_m, invN,
      detN, minorM, n_o, maskedKeys, zd_m, x_update, scenarioWithObs, scenarioState,
      base_t.construct, idMat, zeroMat, zeroVec, Finset.sum_range_succ, List.getD]

/-- C2, counterexample: at `singularObsState` the reduced innovation
covariance S_m = [[0]] is singular (determinant 0), yet `masked_kalman_update`
raises no error — the method is a total function with no throw, mirroring the
source, where Eigen's `inverse()` performs no singularity check — and P does
not keep its pre-correction value: the conditioning pass still rewrites it.
This falsifies both halves of the claim at a concrete input. -/
theorem C2_counterexample :
    detN (n_o singularObsState) (S_m singularObsState) = 0 ∧
    singularObsState.masked_kalman_update.P 0 0 ≠ singularObsState.P 0 0 := by
  constructor
  · norm_num [detN, S_m, n_o, maskedKeys, singularObsState, negDiagState,
      base_t.construct, zeroMat, minorM, Finset.sum_range_succ]
  · norm_num [base_t.masked_kalman_update, condition, condRow, condRowStep, mset,
      List.range_succ, P_sym, P_update, matMul, transposeM, K_m, C_m, Si_m, S_m, invN,
      detN, minorM, n_o, maskedKeys, zd_m, x_update, singularObsState, negDiagState,
      base_t.construct, idMat, zeroMat, zeroVec, Finset.sum_range_succ, List.getD]

/-- C2, amended: when the reduced innovation covariance is singular,
`masked_kalman_update` raises no error and does not leave the state untouched:
it runs to completion, clearing the observation buffer and still forcing every
in-range diagonal entry of P positive through the conditioning pass. -/
theorem C2_amended (s : base_t) (_hdet : detN (n_o s) (S_m s) = 0)
    (i : ℕ) (hi : i < s.n_x) :
    s.masked_kalman_update.m_observations = [] ∧
    0 < s.masked_kalman_update.P i i := by
  refine ⟨rfl, ?_⟩
  show 0 < condition s.n_x (P_sym s) i i
  exact condition_diag_pos s.n_x (P_sym s) hi

/-- Witness for C2 at the concrete singular state. -/
theorem C2_amended_witness :
    singularObsState.masked_kalman_update.m_observations = [] ∧
    0 < singularObsState.masked_kalman_update.P 0 0 :=
  C2_amended singularObsState
    (by norm_num [detN, S_m, n_o, maskedKeys, singularObsState, negDiagState,
      base_t.construct, zeroMat, minorM, Finset.sum_range_succ])
    0 (by decide)

/-- C3, counterexample: with an empty observation buffer the conditioning pass
(lines 104-133) still runs, so P is not always left bit-identical: on the
estimator whose only covariance entry was set to -1 via `set_covariance`, an
empty-buffer `masked_kalman_update` rewrites P[0,0] to 1/1000. -/
theorem C3_counterexample :
    negDiagState.m_observations = [] ∧
    negDiagState.masked_kalman_update.P 0 0 ≠ negDiagState.P 0 0 := by
  refine ⟨rfl, ?_⟩
  norm_num [base_t.masked_kalman_update, condition, condRow, condRowStep, mset,
    List.range_succ, P_sym, P_update, matMul, transposeM, K_m, C_m, Si_m, S_m, invN,
    detN, minorM, n_o, maskedKeys, zd_m, x_update, negDiagState,
    base_t.construct, idMat, zeroMat, zeroVec, Finset.sum_range_succ, List.getD]

/-- C3, amended: with an empty observation buffer `masked_kalman_update`
raises no error (it is total), leaves the state vector x unchanged entrywise,
leaves `has_observations()` false, and passes P through the unconditional
symmetrise-and-condition step — so P is unchanged exactly when it is already a
fixed point of that conditioning (as the fresh identity covariance is), but
not in general. -/
theorem C3_amended (s : base_t) (h : s.m_observations = []) :
    (∀ i, s.masked_kalman_update.x i = s.x i) ∧
    s.masked_kalman_update.has_observations = false ∧
    (∀ i j, s.masked_kalman_update.P i j =
      condition s.n_x (fun a b => (s.P a b + s.P b a) / 2) i j) := by
  refine ⟨fun i => x_update_empty s h i, rfl, fun i j => ?_⟩
  show condition s.n_x (P_sym s) i j = _
  have hsym : P_sym s = fun a b => (s.P a b + s.P b a) / 2 := by
    funext a b
    unfold P_sym
    rw [P_update_empty s h, P_update_empty s h]
  rw [hsym]

/-- Witness for C3 at a fresh estimator (empty buffer). -/
theorem C3_amended_witness :
    (base_t.construct 2 2).masked_kalman_update.x 0 = (base_t.construct 2 2).x 0 ∧
    (base_t.construct 2 2).masked_kalman_update.has_observations = false := by
  have h := C3_amended (base_t.construct 2 2) rfl
  exact ⟨h.1 0, h.2.1⟩

/-- C4, counterexample: at `thinMarginState` (one observation, so n_o > 0) the
corrected diagonal P[0,0] = 1/10000 exceeds its post-threshold off-diagonal
row sum (which is 0) by less than 1e-3, falsifying the claimed margin "at
least 1e-3". -/
theorem C4_counterexample :
    0 < n_o thinMarginState ∧
    ¬ ((∑ j in Finset.range thinMarginState.n_x,
          if j ≠ 0 then |thinMarginState.masked_kalman_update.P 0 j| else 0) + 1 / 1000
        ≤ thinMarginState.masked_kalman_update.P 0 0) := by
  refine ⟨by decide, ?_⟩
  norm_num [base_t.masked_kalman_update, condition, condRow, condRowStep, mset,
    List.range_succ, P_sym, P_update, matMul, transposeM, K_m, C_m, Si_m, S_m, invN,
    detN, minorM, n_o, maskedKeys, zd_m, x_update, thinMarginState,
    base_t.construct, idMat, zeroMat, zeroVec, Finset.sum_range_succ, List.getD]

/-- C4, amended: after every `masked_kalman_update` with n_o > 0 (the method
is total, so every call completes), P is exactly symmetric, and every in-range
diagonal entry strictly exceeds the sum of the absolute values of the
surviving (post-threshold) off-diagonal entries of its row; the excess is at
least 1e-3 only when the conditioning raised the diagonal, and can be smaller
when the diagonal already exceeded the row sum. -/
theorem C4_amended (s : base_t) (_hobs : 0 < n_o s) (i : ℕ) (hi : i < s.n_x) :
    (∀ a b, s.masked_kalman_update.P a b = s.masked_kalman_update.P b a) ∧
    (∑ j in Finset.range s.n_x, if j ≠ i then |s.masked_kalman_update.P i j| else 0)
      < s.masked_kalman_update.P i i := by
  constructor
  · intro a b
    show condition s.n_x (P_sym s) a b = condition s.n_x (P_sym s) b a
    exact condition_symm s.n_x (P_sym s) (P_sym_symm s) a b
  · show (∑ j in Finset.range s.n_x,
        if j ≠ i then |condition s.n_x (P_sym s) i j| else 0)
      < condition s.n_x (P_sym s) i i
    rw [rowSum_final s.n_x (P_sym s) hi]
    exact condition_diag_gt_rowSum s.n_x (P_sym s) hi

/-- Witness for C4 at the concrete one-observation state. -/
theorem C4_amended_witness :
    (∑ j in Finset.range thinMarginState.n_x,
      if j ≠ 0 then |thinMarginState.masked_kalman_update.P 0 j| else 0)
      < thinMarginState.masked_kalman_update.P 0 0 :=
  (C4_amended thinMarginState (by decide) 0 (by decide)).2

/-- C6: `initialize_state` (the implementation of reinitialize) fails exactly
when x0's length differs from n_x or P0 is not n_x-by-n_x (the model returns
the error without producing a state, mirroring the throw before any
assignment, so the prior x and P are untouched on failure); on success it
replaces x and P wholesale and leaves Q, R, C, z, S, the observation buffer
and the dimensions unmodified. -/
theorem C6_initialize_state_spec (s : base_t) (x0 : VectorXd) (P0 : MatrixXd) :
    ((∃ e, s.initialize_state x0 P0 = Except.error e) ↔
      (x0.size ≠ s.n_x ∨ P0.rows ≠ s.n_x ∨ P0.cols ≠ s.n_x)) ∧
    ∀ s', s.initialize_state x0 P0 = Except.ok s' →
      s'.x = x0.entry ∧ s'.P = P0.entry ∧ s'.Q = s.Q ∧ s'.R = s.R ∧ s'.C = s.C ∧
      s'.z = s.z ∧ s'.S = s.S ∧ s'.m_observations = s.m_observations ∧
      s'.n_x = s.n_x ∧ s'.n_z = s.n_z := by
  unfold base_t.initialize_state
  by_cases h1 : x0.size ≠ s.n_x
  · rw [if_pos h1]
    refine ⟨⟨fun _ => Or.inl h1, fun _ => ⟨_, rfl⟩⟩, fun s' hs' => ?_⟩
    exact Except.noConfusion hs'
  · rw [if_neg h1]
    by_cases h2 : P0.rows ≠ s.n_x ∨ P0.cols ≠ s.n_x
    · rw [if_pos h2]
      refine ⟨⟨fun _ => ?_, fun _ => ⟨_, rfl⟩⟩, fun s' hs' => Except.noConfusion hs'⟩
      rcases h2 with h2 | h2
      · exact Or.inr (Or.inl h2)
      · exact Or.inr (Or.inr h2)
    · rw [if_neg h2]
      constructor
      · constructor
        · rintro ⟨e, he⟩
          exact Except.noConfusion he
        · intro hor
          rcases hor with h | h | h
          · exact absurd h h1
          · exact absurd (Or.inl h) h2
          · exact absurd (Or.inr h) h2
      · intro s' hs'
        injection hs' with h'
        subst h'
        exact ⟨rfl, rfl, rfl, rfl, rfl, rfl, rfl, rfl, rfl, rfl⟩

/-- Witness for C6: a successful reinitialisation of a fresh 2-state
estimator, with the untouched process noise as sample frame fact. -/
theorem C6_witness :
    (base_t.construct 2 2).initialize_state ⟨2, fun _ => 5⟩ ⟨2, 2, fun _ _ => 7⟩
        = Except.ok reinitialized ∧
    reinitialized.Q = (base_t.construct 2 2).Q := by
  have h := C6_initialize_state_spec (base_t.construct 2 2) ⟨2, fun _ => 5⟩
    ⟨2, 2, fun _ _ => 7⟩
  exact ⟨rfl, (h.2 reinitialized rfl).2.2.1⟩

/-- C7: `new_observation` errors exactly when the observer index is at least
n_z (the model returns the error without producing a state, mirroring the
throw before the map write, so nothing is mutated); on success it
insert-or-replaces the value, after which `has_observation` at that index and
`has_observations` hold, x, P and the dimensions are untouched, a second call
with the same index overwrites the first value (the buffer holds what a single
insert of the second value yields), and the strictly-ascending key invariant
of the map is preserved, so the buffer holds no duplicate keys. -/
theorem C7_new_observation_spec (s : base_t) (i : ℕ) (v1 v2 : ℚ) :
    ((∃ e, s.new_observation i v1 = Except.error e) ↔ s.n_z ≤ i) ∧
    ∀ s', s.new_observation i v1 = Except.ok s' →
      s'.m_observations = mapInsert s.m_observations i v1 ∧
      s'.has_observation i = true ∧
      s'.has_observations = true ∧
      s'.x = s.x ∧ s'.P = s.P ∧ s'.n_x = s.n_x ∧ s'.n_z = s.n_z ∧
      (∀ s'', s'.new_observation i v2 = Except.ok s'' →
        s''.m_observations = mapInsert s.m_observations i v2) ∧
      (obsWF s.m_observations → obsWF s'.m_observations ∧
        (s'.m_observations.map Prod.fst).Nodup) := by
  unfold base_t.new_observation
  by_cases h : i < s.n_z
  · rw [if_neg (fun hc => hc h)]
    constructor
    · constructor
      · rintro ⟨e, he⟩
        exact Except.noConfusion he
      · intro hle
        exact absurd h (Nat.not_lt.mpr hle)
    · intro s' hs'
      injection hs' with h'
      subst h'
      refine ⟨rfl, ?_, ?_, rfl, rfl, rfl, rfl, ?_, ?_⟩
      · apply List.any_eq_true.mpr
        exact ⟨(i, v1), mapInsert_mem_self _ _ _, by simp⟩
      · cases hm : mapInsert s.m_observations i v1 with
        | nil => exact absurd hm (mapInsert_ne_nil _ _ _)
        | cons q t => rfl
      · intro s'' hs''
        rw [if_neg (fun hc => hc h)] at hs''
        injection hs'' with h''
        subst h''
        exact mapInsert_mapInsert _ _ _ _
      · intro hwf
        have hwf' := mapInsert_wf s.m_observations i v1 hwf
        exact ⟨hwf', obsWF_keys_nodup _ hwf'⟩
  · rw [if_pos h]
    refine ⟨⟨fun _ => Nat.not_lt.mp h, fun _ => ⟨_, rfl⟩⟩, fun s' hs' => ?_⟩
    exact Except.noConfusion hs'

/-- Witness for C7: inserting observation (0, 2) into a fresh 1-observer
estimator makes both observation queries true. -/
theorem C7_witness :
    obsOnce.has_observation 0 = true ∧ obsOnce.has_observations = true := by
  have h := (C7_new_observation_spec (base_t.construct 1 1) 0 2 3).2 obsOnce rfl
  exact ⟨h.2.1, h.2.2.1⟩
